import Mathlib

/-!
Verification of the image-fitting layout resolver of
src/library/src/visualize/image.rs (ImageNode::construct and
ImageNode::layout) against its specification.

Lengths in the source are IEEE-754 doubles wrapped in Abs, where an
unbounded region axis is the positive-infinity sentinel.  We embed these
scalars as an extended rational type with explicit positive/negative
infinity and an undefined value (the result of indeterminate operations
such as infinity divided by infinity), mirroring IEEE-754 semantics on
the operations the resolver uses: multiplication, division, minimum and
the comparisons, all of which treat the undefined value as incomparable.
-/

namespace ImageLayout

/-- Scalar value of the layout computation: a finite rational, positive or
negative infinity (the sentinel for an unbounded region axis), or the
undefined result of an indeterminate operation (IEEE NaN). -/
inductive Ext where
  | nan : Ext
  | inf : Ext
  | ninf : Ext
  | fin (q : ℚ) : Ext
deriving DecidableEq, Repr

namespace Ext

/-- Multiplication with IEEE-754 rules: undefined absorbs, infinity times a
nonzero finite value keeps the sign, infinity times zero is undefined. -/
def mul : Ext → Ext → Ext
  | nan, _ => nan
  | _, nan => nan
  | inf, inf => inf
  | inf, ninf => ninf
  | ninf, inf => ninf
  | ninf, ninf => inf
  | inf, fin q => if 0 < q then inf else if q < 0 then ninf else nan
  | fin q, inf => if 0 < q then inf else if q < 0 then ninf else nan
  | ninf, fin q => if 0 < q then ninf else if q < 0 then inf else nan
  | fin q, ninf => if 0 < q then ninf else if q < 0 then inf else nan
  | fin a, fin b => fin (a * b)

/-- Division with IEEE-754 rules: undefined absorbs, infinity over infinity
is undefined, a finite value over infinity is zero, a nonzero finite value
over zero is a signed infinity, zero over zero is undefined. -/
def div : Ext → Ext → Ext
  | nan, _ => nan
  | _, nan => nan
  | inf, inf => nan
  | inf, ninf => nan
  | ninf, inf => nan
  | ninf, ninf => nan
  | inf, fin q => if 0 ≤ q then inf else ninf
  | ninf, fin q => if 0 ≤ q then ninf else inf
  | fin _, inf => fin 0
  | fin _, ninf => fin 0
  | fin a, fin b =>
    if b = 0 then (if 0 < a then inf else if a < 0 then ninf else nan)
    else fin (a / b)

/-- Minimum of two scalars; on the values reachable from well-formed inputs
both arguments are comparable, and an undefined argument is ignored. -/
def min : Ext → Ext → Ext
  | nan, b => b
  | a, nan => a
  | ninf, _ => ninf
  | _, ninf => ninf
  | inf, b => b
  | a, inf => a
  | fin a, fin b => fin (Min.min a b)

/-- Strict less-than with IEEE-754 rules: false whenever an operand is
undefined. -/
def blt : Ext → Ext → Bool
  | nan, _ => false
  | _, nan => false
  | ninf, ninf => false
  | ninf, _ => true
  | _, ninf => false
  | inf, _ => false
  | fin _, inf => true
  | fin a, fin b => decide (a < b)

/-- Non-strict less-than-or-equal with IEEE-754 rules: false whenever an
operand is undefined. -/
def ble : Ext → Ext → Bool
  | nan, _ => false
  | _, nan => false
  | ninf, _ => true
  | _, ninf => false
  | _, inf => true
  | inf, _ => false
  | fin a, fin b => decide (a ≤ b)

/-- Mirrors Abs::is_finite of the source: true exactly on finite values. -/
def isFinite : Ext → Bool
  | fin _ => true
  | _ => false

/-- Well-formedness of an input length: a nonnegative finite value or the
positive-infinity sentinel for an unboundedly large axis. -/
def nonneg : Ext → Bool
  | inf => true
  | fin q => decide (0 ≤ q)
  | _ => false

end Ext

/-- Pair of per-axis values, mirroring the source's Axes type. -/
structure Axes (α : Type) where
  x : α
  y : α
deriving DecidableEq, Repr

/-- Mirrors the source's Smart: a value that can be unspecified (auto) or
given explicitly. -/
inductive Smart (α : Type) where
  | auto : Smart α
  | custom (v : α) : Smart α
deriving DecidableEq, Repr

/-- Mirrors Smart::is_custom. -/
def Smart.isCustom : Smart α → Bool
  | Smart.auto => false
  | Smart.custom _ => true

/-- Well-formedness of a sizing request: an explicit request resolves to a
nonnegative length. -/
def Smart.nonnegVal : Smart Ext → Bool
  | Smart.auto => true
  | Smart.custom v => v.nonneg

/-- Mirrors the ImageFit enum of the source. -/
inductive ImageFit where
  | cover : ImageFit
  | contain : ImageFit
  | stretch : ImageFit
deriving DecidableEq, Repr

/-- Boolean test mirroring the source's comparison fit == ImageFit::Contain. -/
def ImageFit.isContain : ImageFit → Bool
  | ImageFit.contain => true
  | _ => false

/-- Mirrors the RasterFormat enum of the source. -/
inductive RasterFormat where
  | png : RasterFormat
  | jpg : RasterFormat
  | gif : RasterFormat
deriving DecidableEq, Repr

/-- Mirrors the VectorFormat enum of the source. -/
inductive VectorFormat where
  | svg : VectorFormat
deriving DecidableEq, Repr

/-- Mirrors the ImageFormat enum of the source. -/
inductive ImageFormat where
  | raster (f : RasterFormat) : ImageFormat
  | vector (f : VectorFormat) : ImageFormat
deriving DecidableEq, Repr

/-- Failure of format detection, raised by the bail! arm of
ImageNode::construct with the message "unknown image format" and the call
site's span attached. -/
inductive FormatError where
  | unknownImageFormat : FormatError
deriving DecidableEq, Repr

/-- Mirrors the format-selection match of ImageNode::construct (lines 54-60):
the file extension (as its character sequence) is lowercased and looked up
in a fixed table; an unmatched extension fails. -/
def detectFormat (ext : List Char) : Except FormatError ImageFormat :=
  match ext.map Char.toLower with
  | ['p', 'n', 'g'] => Except.ok (ImageFormat.raster RasterFormat.png)
  | ['j', 'p', 'g'] | ['j', 'p', 'e', 'g'] =>
    Except.ok (ImageFormat.raster RasterFormat.jpg)
  | ['g', 'i', 'f'] => Except.ok (ImageFormat.raster RasterFormat.gif)
  | ['s', 'v', 'g'] | ['s', 'v', 'g', 'z'] =>
    Except.ok (ImageFormat.vector VectorFormat.svg)
  | _ => Except.error FormatError.unknownImageFormat

/-- Image node: the decoded image's intrinsic pixel dimensions together with
the requested width and height.  The source's width and height fields hold
Smart of a relative length that is resolved against the region by the geom
crate before use; resolving happens outside this file, so an explicit
request carries its already-resolved absolute value. -/
structure ImageNode where
  pxw : ℚ
  pxh : ℚ
  width : Smart Ext
  height : Smart Ext
deriving DecidableEq, Repr

/-- Layout regions handed to ImageNode::layout: the base size (finite or
unbounded per axis) and the per-axis expansion flags. -/
structure Regions where
  base : Axes Ext
  expand : Axes Bool
deriving DecidableEq, Repr

/-- Working region of lines 76-80: per axis, the resolved explicit request
when present, the region base otherwise. -/
def ImageNode.region (node : ImageNode) (regions : Regions) : Axes Ext :=
  Axes.mk
    (match node.width with
      | Smart.auto => regions.base.x
      | Smart.custom v => v)
    (match node.height with
      | Smart.auto => regions.base.y
      | Smart.custom v => v)

/-- Expansion flags of line 82: an axis expands when its sizing request is
explicit or the region's expand flag for it is set. -/
def ImageNode.expand (node : ImageNode) (regions : Regions) : Axes Bool :=
  Axes.mk
    (node.width.isCustom || regions.expand.x)
    (node.height.isCustom || regions.expand.y)

/-- Pixel aspect ratio of lines 86-88: intrinsic width over intrinsic
height. -/
def ImageNode.pxAspect (node : ImageNode) : Ext :=
  Ext.div (Ext.fin node.pxw) (Ext.fin node.pxh)

/-- Region aspect ratio of line 83: working-region width over height. -/
def ImageNode.regionAspect (node : ImageNode) (regions : Regions) : Ext :=
  Ext.div (node.region regions).x (node.region regions).y

/-- Wide test of line 89: whether the image is proportionally wider than the
working region, by strict comparison. -/
def ImageNode.wide (node : ImageNode) (regions : Regions) : Bool :=
  Ext.blt (node.regionAspect regions) (node.pxAspect)

/-- Target box of lines 92-100.  Abs::safe_div is defined outside src;
modelled from the spec: the height cap is working-region width divided by
the pixel ratio, with the sentinel rules of IEEE division. -/
def ImageNode.target (node : ImageNode) (regions : Regions) : Axes Ext :=
  let region := node.region regions
  let expand := node.expand regions
  if expand.x && expand.y then
    region
  else if expand.x || (!expand.y && node.wide regions && region.x.isFinite) then
    Axes.mk region.x (Ext.min region.y (Ext.div region.x node.pxAspect))
  else if region.y.isFinite then
    Axes.mk (Ext.min region.x (Ext.mul region.y node.pxAspect)) region.y
  else
    Axes.mk (Ext.fin node.pxw) (Ext.fin node.pxh)

/-- Fitted (placed) size of lines 104-113: Stretch takes the target as is;
Cover and Contain scale by width or by height so that the image covers,
respectively fits inside, the target. -/
def ImageNode.fitted (node : ImageNode) (regions : Regions) (fit : ImageFit) :
    Axes Ext :=
  let target := node.target regions
  match fit with
  | ImageFit.cover | ImageFit.contain =>
    if node.wide regions = fit.isContain then
      Axes.mk target.x (Ext.div target.x node.pxAspect)
    else
      Axes.mk (Ext.mul target.y node.pxAspect) target.y
  | ImageFit.stretch => target

/-- Size::fits is defined outside src; modelled from the spec: the other
size fits into this one when it is no larger on either axis. -/
def sizeFits (self other : Axes Ext) : Bool :=
  Ext.ble other.x self.x && Ext.ble other.y self.y

/-- Clip decision of lines 123-125: clip exactly when the fit is Cover and
the fitted size does not fit into the target. -/
def ImageNode.clip (node : ImageNode) (regions : Regions) (fit : ImageFit) :
    Bool :=
  decide (fit = ImageFit.cover) && !(sizeFits (node.target regions) (node.fitted regions fit))

/-- Well-formed inputs: positive finite intrinsic pixel dimensions,
nonnegative resolved sizing requests, nonnegative (finite or unbounded)
region base axes. -/
def WfInput (node : ImageNode) (regions : Regions) : Prop :=
  0 < node.pxw ∧ 0 < node.pxh ∧
  node.width.nonnegVal = true ∧ node.height.nonnegVal = true ∧
  regions.base.x.nonneg = true ∧ regions.base.y.nonneg = true

/-- Helper: a well-formed length is the sentinel or a nonnegative finite
value. -/
theorem Ext.nonneg_cases {e : Ext} (h : e.nonneg = true) :
    e = Ext.inf ∨ ∃ q : ℚ, e = Ext.fin q ∧ 0 ≤ q := by
  cases e with
  | nan => simp [Ext.nonneg] at h
  | inf => exact Or.inl rfl
  | ninf => simp [Ext.nonneg] at h
  | fin q => exact Or.inr ⟨q, rfl, by simpa [Ext.nonneg] using h⟩

/-- Helper: strict comparison is irreflexive. -/
theorem Ext.blt_self (e : Ext) : Ext.blt e e = false := by
  cases e <;> simp [Ext.blt]

/-- Helper: non-strict comparison is reflexive away from the undefined
value. -/
theorem Ext.ble_self_of_nonneg {e : Ext} (h : e.nonneg = true) :
    Ext.ble e e = true := by
  cases e <;> simp_all [Ext.nonneg, Ext.ble]

/-- Helper: on well-formed values, failure of non-strict comparison is the
reverse strict comparison. -/
theorem Ext.not_ble_of_nonneg {a b : Ext} (ha : a.nonneg = true)
    (hb : b.nonneg = true) : (!(Ext.ble a b)) = Ext.blt b a := by
  cases a <;> cases b <;>
    simp_all [Ext.nonneg, Ext.ble, Ext.blt, ← decide_not, decide_eq_decide,
      not_lt]

/-- Helper: minimum preserves well-formedness. -/
theorem Ext.nonneg_min {a b : Ext} (ha : a.nonneg = true)
    (hb : b.nonneg = true) : (Ext.min a b).nonneg = true := by
  cases a <;> cases b <;>
    simp_all [Ext.nonneg, Ext.min, le_min_iff]

/-- Helper: division by a positive finite value preserves
well-formedness. -/
theorem Ext.nonneg_div_fin {a : Ext} {r : ℚ} (ha : a.nonneg = true)
    (hr : 0 < r) : (Ext.div a (Ext.fin r)).nonneg = true := by
  cases a with
  | nan => simp [Ext.nonneg] at ha
  | ninf => simp [Ext.nonneg] at ha
  | inf => simp [Ext.div, Ext.nonneg, hr.le]
  | fin q =>
    have hq : 0 ≤ q := by simpa [Ext.nonneg] using ha
    simp [Ext.div, hr.ne', Ext.nonneg, div_nonneg hq hr.le]

/-- Helper: multiplication by a positive finite value preserves
well-formedness. -/
theorem Ext.nonneg_mul_fin {a : Ext} {r : ℚ} (ha : a.nonneg = true)
    (hr : 0 < r) : (Ext.mul a (Ext.fin r)).nonneg = true := by
  cases a with
  | nan => simp [Ext.nonneg] at ha
  | ninf => simp [Ext.nonneg] at ha
  | inf => simp [Ext.mul, Ext.nonneg, hr]
  | fin q =>
    have hq : 0 ≤ q := by simpa [Ext.nonneg] using ha
    simp [Ext.mul, Ext.nonneg, mul_nonneg hq hr.le]

/-- Helper: the working region of a well-formed input is well-formed on both
axes. -/
theorem region_nonneg (node : ImageNode) (regions : Regions)
    (hwf : WfInput node regions) :
    (node.region regions).x.nonneg = true ∧
    (node.region regions).y.nonneg = true := by
  obtain ⟨_, _, hsw, hsh, hbx, hby⟩ := hwf
  constructor
  · cases hw : node.width <;> simp_all [ImageNode.region, Smart.nonnegVal]
  · cases hh : node.height <;> simp_all [ImageNode.region, Smart.nonnegVal]

/-- Helper: with a positive intrinsic height the pixel aspect ratio is the
finite quotient of the intrinsic dimensions. -/
theorem pxAspect_eq (node : ImageNode) (hph : 0 < node.pxh) :
    node.pxAspect = Ext.fin (node.pxw / node.pxh) := by
  simp [ImageNode.pxAspect, Ext.div, hph.ne']

/-- Concrete input for witnesses: a 2 by 1 pixel image with no explicit
sizing request. -/
def wNode : ImageNode := ImageNode.mk 2 1 Smart.auto Smart.auto

/-- Concrete input for witnesses: a finite 4 by 4 region without
expansion. -/
def wRegions : Regions :=
  Regions.mk (Axes.mk (Ext.fin 4) (Ext.fin 4)) (Axes.mk false false)

/-- Concrete input for witnesses: a finite 4 by 4 region expanding on both
axes. -/
def wRegionsExpand : Regions :=
  Regions.mk (Axes.mk (Ext.fin 4) (Ext.fin 4)) (Axes.mk true true)

/-- Helper: the witness inputs are well-formed. -/
theorem wNode_wf : WfInput wNode wRegions :=
  ⟨by decide, by decide, rfl, rfl, rfl, rfl⟩

/-- Helper: the expanding witness inputs are well-formed. -/
theorem wNode_wf_expand : WfInput wNode wRegionsExpand :=
  ⟨by decide, by decide, rfl, rfl, rfl, rfl⟩

/-- C5: for every input where fit_mode is Stretch, the placed size equals
the target box exactly, regardless of the image's aspect ratio, the
expansion flags, or region boundedness. -/
theorem claim5_stretch_fills_target (node : ImageNode) (regions : Regions) :
    node.fitted regions ImageFit.stretch = node.target regions := rfl

/-- C6: for every input where both axes expand, the target box equals the
working region exactly, irrespective of fit_mode (the target does not
depend on the fit mode) and of the image's aspect ratio. -/
theorem claim6_both_expand_fills_region (node : ImageNode)
    (regions : Regions) (hx : (node.expand regions).x = true)
    (hy : (node.expand regions).y = true) :
    node.target regions = node.region regions := by
  simp [ImageNode.target, hx, hy]

/-- Witness for C6 at the concrete expanding input. -/
theorem claim6_witness :
    wNode.target wRegionsExpand = wNode.region wRegionsExpand :=
  claim6_both_expand_fills_region wNode wRegionsExpand (by decide) (by decide)

/-- C9: for every file extension, the image format is selected by matching
the lowercased extension against a fixed table whose recognized results are
exactly the raster formats PNG, JPEG and GIF and the vector format SVG, and
any extension outside the table fails with the unknown-image-format error
condition. -/
theorem claim9_format_table :
    (∀ ext : List Char,
      detectFormat ext = Except.error FormatError.unknownImageFormat ∨
      ∃ f, detectFormat ext = Except.ok f ∧
        (f = ImageFormat.raster RasterFormat.png ∨
         f = ImageFormat.raster RasterFormat.jpg ∨
         f = ImageFormat.raster RasterFormat.gif ∨
         f = ImageFormat.vector VectorFormat.svg)) ∧
    detectFormat (['p', 'n', 'g']) =
      Except.ok (ImageFormat.raster RasterFormat.png) ∧
    detectFormat (['j', 'p', 'g']) =
      Except.ok (ImageFormat.raster RasterFormat.jpg) ∧
    detectFormat (['j', 'p', 'e', 'g']) =
      Except.ok (ImageFormat.raster RasterFormat.jpg) ∧
    detectFormat (['g', 'i', 'f']) =
      Except.ok (ImageFormat.raster RasterFormat.gif) ∧
    detectFormat (['s', 'v', 'g']) =
      Except.ok (ImageFormat.vector VectorFormat.svg) ∧
    detectFormat (['s', 'v', 'g', 'z']) =
      Except.ok (ImageFormat.vector VectorFormat.svg) ∧
    detectFormat (['P', 'N', 'G']) =
      Except.ok (ImageFormat.raster RasterFormat.png) ∧
    detectFormat (['b', 'm', 'p']) =
      Except.error FormatError.unknownImageFormat := by
  refine ⟨?_, rfl, rfl, rfl, rfl, rfl, rfl, rfl, rfl⟩
  intro ext
  unfold detectFormat
  split <;> simp

/-- C10: for every input where fit_mode is Cover or Contain, the placed
size equals the target exactly on the driving axis: either placed.x equals
target.x with placed.y derived by dividing by the pixel ratio, or placed.y
equals target.y with placed.x derived by multiplying by the pixel ratio. -/
theorem claim10_driving_axis (node : ImageNode) (regions : Regions)
    (fit : ImageFit) (hfit : fit ≠ ImageFit.stretch) :
    node.fitted regions fit =
      Axes.mk (node.target regions).x
        (Ext.div (node.target regions).x node.pxAspect) ∨
    node.fitted regions fit =
      Axes.mk (Ext.mul (node.target regions).y node.pxAspect)
        (node.target regions).y := by
  cases fit with
  | stretch => exact absurd rfl hfit
  | cover =>
    by_cases h : node.wide regions = ImageFit.isContain ImageFit.cover
    · exact Or.inl (by simp [ImageNode.fitted, h])
    · exact Or.inr (by simp [ImageNode.fitted, h])
  | contain =>
    by_cases h : node.wide regions = ImageFit.isContain ImageFit.contain
    · exact Or.inl (by simp [ImageNode.fitted, h])
    · exact Or.inr (by simp [ImageNode.fitted, h])

/-- Witness for C10 at the concrete non-expanding input with Cover. -/
theorem claim10_witness :
    wNode.fitted wRegions ImageFit.cover =
      Axes.mk (wNode.target wRegions).x
        (Ext.div (wNode.target wRegions).x wNode.pxAspect) ∨
    wNode.fitted wRegions ImageFit.cover =
      Axes.mk (Ext.mul (wNode.target wRegions).y wNode.pxAspect)
        (wNode.target wRegions).y :=
  claim10_driving_axis wNode wRegions ImageFit.cover (by decide)

/-- Concrete input for witnesses: a region unbounded on both axes without
expansion. -/
def wRegionsInf : Regions :=
  Regions.mk (Axes.mk Ext.inf Ext.inf) (Axes.mk false false)

/-- Concrete input for witnesses: a finite 8 by 4 region without expansion,
whose ratio ties the 2 by 1 pixel ratio. -/
def wRegionsTie : Regions :=
  Regions.mk (Axes.mk (Ext.fin 8) (Ext.fin 4)) (Axes.mk false false)

/-- C7: for every input where the region is unbounded on both axes, neither
region expand flag is set and both sizing requests are auto, the target
equals the intrinsic pixel size at one point per pixel, the placed size
equals the target for every fit mode, and clip is false. -/
theorem claim7_unbounded_native (node : ImageNode) (regions : Regions)
    (fit : ImageFit) (hpw : 0 < node.pxw) (hph : 0 < node.pxh)
    (hw : node.width = Smart.auto) (hh : node.height = Smart.auto)
    (hbx : regions.base.x = Ext.inf) (hby : regions.base.y = Ext.inf)
    (hex : regions.expand.x = false) (hey : regions.expand.y = false) :
    node.target regions = Axes.mk (Ext.fin node.pxw) (Ext.fin node.pxh) ∧
    node.fitted regions fit = node.target regions ∧
    node.clip regions fit = false := by
  have hreg : node.region regions = Axes.mk Ext.inf Ext.inf := by
    simp [ImageNode.region, hw, hh, hbx, hby]
  have hexp : node.expand regions = Axes.mk false false := by
    simp [ImageNode.expand, hw, hh, hex, hey, Smart.isCustom]
  have hwide : node.wide regions = false := by
    simp [ImageNode.wide, ImageNode.regionAspect, hreg, Ext.div, Ext.blt]
  have htar : node.target regions =
      Axes.mk (Ext.fin node.pxw) (Ext.fin node.pxh) := by
    simp [ImageNode.target, hreg, hexp, hwide, Ext.isFinite]
  have hpx : node.pxAspect = Ext.fin (node.pxw / node.pxh) :=
    pxAspect_eq node hph
  have hr : 0 < node.pxw / node.pxh := div_pos hpw hph
  have hfit : node.fitted regions fit = node.target regions := by
    cases fit with
    | stretch => rfl
    | cover =>
      have harith : node.pxw / (node.pxw / node.pxh) = node.pxh := by
        field_simp
      simp [ImageNode.fitted, hwide, ImageFit.isContain, htar, hpx, Ext.div,
        hr.ne', harith]
    | contain =>
      have harith : node.pxh * (node.pxw / node.pxh) = node.pxw := by
        field_simp
      simp [ImageNode.fitted, hwide, ImageFit.isContain, htar, hpx, Ext.mul,
        harith]
  refine ⟨htar, hfit, ?_⟩
  cases fit with
  | stretch => simp [ImageNode.clip]
  | contain => simp [ImageNode.clip]
  | cover =>
    simp [ImageNode.clip, sizeFits, hfit, htar, Ext.ble]

/-- Witness for C7 at the concrete unbounded input with Cover. -/
theorem claim7_witness :
    wNode.target wRegionsInf =
      Axes.mk (Ext.fin wNode.pxw) (Ext.fin wNode.pxh) ∧
    wNode.fitted wRegionsInf ImageFit.cover = wNode.target wRegionsInf ∧
    wNode.clip wRegionsInf ImageFit.cover = false :=
  claim7_unbounded_native wNode wRegionsInf ImageFit.cover (by decide)
    (by decide) rfl rfl rfl rfl rfl rfl

/-- C8: when the pixel aspect ratio exactly equals the working region's
ratio, the strict comparison makes wide false, so away from the
x-expansion cases target selection falls through to the tall or native
branches rather than the wide branch. -/
theorem claim8_aspect_tie_not_wide (node : ImageNode) (regions : Regions)
    (htie : node.regionAspect regions = node.pxAspect)
    (hex : (node.expand regions).x = false) :
    node.wide regions = false ∧
    node.target regions =
      (if (node.region regions).y.isFinite then
        Axes.mk
          (Ext.min (node.region regions).x
            (Ext.mul (node.region regions).y node.pxAspect))
          (node.region regions).y
      else Axes.mk (Ext.fin node.pxw) (Ext.fin node.pxh)) := by
  have hwide : node.wide regions = false := by
    rw [ImageNode.wide, htie]; exact Ext.blt_self _
  refine ⟨hwide, ?_⟩
  simp [ImageNode.target, hex, hwide]

/-- Helper: at the ratio-tie input the region ratio equals the pixel
ratio. -/
theorem wRegionsTie_tie : wNode.regionAspect wRegionsTie = wNode.pxAspect := by
  norm_num [ImageNode.regionAspect, ImageNode.pxAspect, ImageNode.region,
    wNode, wRegionsTie, Ext.div]

/-- Witness for C8 at the concrete ratio-tie input. -/
theorem claim8_witness :
    wNode.wide wRegionsTie = false ∧
    wNode.target wRegionsTie =
      (if (wNode.region wRegionsTie).y.isFinite then
        Axes.mk
          (Ext.min (wNode.region wRegionsTie).x
            (Ext.mul (wNode.region wRegionsTie).y wNode.pxAspect))
          (wNode.region wRegionsTie).y
      else Axes.mk (Ext.fin wNode.pxw) (Ext.fin wNode.pxh)) :=
  claim8_aspect_tie_not_wide wNode wRegionsTie wRegionsTie_tie (by decide)

/-- Helper: the four fit inequalities between the target box and the
width-driven or height-driven scaled sizes, split by the wide flag.  With
wide false the width-driven height is at least the target height and the
height-driven width is at most the target width; with wide true the
roles swap. -/
theorem fit_bounds (node : ImageNode) (regions : Regions)
    (hwf : WfInput node regions) :
    (node.wide regions = false →
      Ext.ble (node.target regions).y
        (Ext.div (node.target regions).x node.pxAspect) = true ∧
      Ext.ble (Ext.mul (node.target regions).y node.pxAspect)
        (node.target regions).x = true) ∧
    (node.wide regions = true →
      Ext.ble (node.target regions).x
        (Ext.mul (node.target regions).y node.pxAspect) = true ∧
      Ext.ble (Ext.div (node.target regions).x node.pxAspect)
        (node.target regions).y = true) := by
  obtain ⟨hX, hY⟩ := region_nonneg node regions hwf
  obtain ⟨hpw, hph, -, -, -, -⟩ := hwf
  have hr : 0 < node.pxw / node.pxh := div_pos hpw hph
  have hpx := pxAspect_eq node hph
  have hwn : node.pxw / (node.pxw / node.pxh) = node.pxh := by field_simp
  have hhn : node.pxh * (node.pxw / node.pxh) = node.pxw := by field_simp
  rcases Ext.nonneg_cases hX with hXe | ⟨qx, hXe, hqx⟩
  · rcases Ext.nonneg_cases hY with hYe | ⟨qy, hYe, hqy⟩
    · -- region unbounded on both axes: the ratio is undefined, wide is false
      have hw : node.wide regions = false := by
        simp [ImageNode.wide, ImageNode.regionAspect, hXe, hYe, Ext.div,
          Ext.blt]
      refine ⟨fun _ => ?_, fun h => by rw [hw] at h; simp at h⟩
      cases hex : (node.expand regions).x <;>
        cases hey : (node.expand regions).y <;>
          simp [ImageNode.target, hw, hex, hey, hXe, hYe, hpx, Ext.isFinite,
            Ext.div, Ext.mul, Ext.min, Ext.ble, hr, hr.le, hr.ne', hwn, hhn]
    · -- width unbounded, height finite: the ratio is the sentinel, wide is
      -- false
      have hw : node.wide regions = false := by
        simp [ImageNode.wide, ImageNode.regionAspect, hXe, hYe, hpx, Ext.div,
          Ext.blt, hqy]
      refine ⟨fun _ => ?_, fun h => by rw [hw] at h; simp at h⟩
      cases hex : (node.expand regions).x <;>
        cases hey : (node.expand regions).y <;>
          simp [ImageNode.target, hw, hex, hey, hXe, hYe, hpx, Ext.isFinite,
            Ext.div, Ext.mul, Ext.min, Ext.ble, hr, hr.le, hr.ne',
            mul_div_cancel_right₀, hqy]
  · rcases Ext.nonneg_cases hY with hYe | ⟨qy, hYe, hqy⟩
    · -- width finite, height unbounded: the ratio is zero, wide is true
      have hw : node.wide regions = true := by
        simp [ImageNode.wide, ImageNode.regionAspect, hXe, hYe, hpx, Ext.div,
          Ext.blt, hr]
      refine ⟨fun h => by rw [hw] at h; simp at h, fun _ => ?_⟩
      cases hex : (node.expand regions).x <;>
        cases hey : (node.expand regions).y <;>
          simp [ImageNode.target, hw, hex, hey, hXe, hYe, hpx, Ext.isFinite,
            Ext.div, Ext.mul, Ext.min, Ext.ble, hr, hr.le, hr.ne', hwn, hhn,
            div_mul_cancel₀]
    · -- both axes finite
      rcases hqy.eq_or_lt with hqy0 | hqy0
      · -- region height is zero: the ratio is infinite or undefined
        subst hqy0
        rcases hqx.eq_or_lt with hqx0 | hqx0
        · subst hqx0
          have hw : node.wide regions = false := by
            simp [ImageNode.wide, ImageNode.regionAspect, hXe, hYe, Ext.div,
              Ext.blt]
          refine ⟨fun _ => ?_, fun h => by rw [hw] at h; simp at h⟩
          cases hex : (node.expand regions).x <;>
            cases hey : (node.expand regions).y <;>
              simp [ImageNode.target, hw, hex, hey, hXe, hYe, hpx,
                Ext.isFinite, Ext.div, Ext.mul, Ext.min, Ext.ble, hr.ne',
                hr.le]
        · have hw : node.wide regions = false := by
            simp [ImageNode.wide, ImageNode.regionAspect, hXe, hYe, hpx,
              Ext.div, Ext.blt, hqx0]
          have hdn : 0 ≤ qx / (node.pxw / node.pxh) := div_nonneg hqx hr.le
          have hminz : Min.min 0 (qx / (node.pxw / node.pxh)) = 0 :=
            min_eq_left hdn
          have hminz2 : Min.min qx 0 = 0 := min_eq_right hqx
          refine ⟨fun _ => ?_, fun h => by rw [hw] at h; simp at h⟩
          cases hex : (node.expand regions).x <;>
            cases hey : (node.expand regions).y <;>
              simp [ImageNode.target, hw, hex, hey, hXe, hYe, hpx,
                Ext.isFinite, Ext.div, Ext.mul, Ext.min, Ext.ble, hr.ne',
                hr.le, hdn, hminz, hminz2, hqx]
      · -- region height is positive: the comparison is on finite ratios
        by_cases hlt : qx / qy < node.pxw / node.pxh
        · have hw : node.wide regions = true := by
            simp [ImageNode.wide, ImageNode.regionAspect, hXe, hYe, hpx,
              Ext.div, Ext.blt, hqy0.ne', hlt]
          have hq2 : qx ≤ qy * (node.pxw / node.pxh) := by
            have h0 := (div_lt_iff₀ hqy0).mp hlt
            have h1 : node.pxw / node.pxh * qy = qy * (node.pxw / node.pxh) :=
              mul_comm _ _
            linarith
          have hxr : qx / (node.pxw / node.pxh) ≤ qy :=
            (div_le_iff₀ hr).mpr hq2
          have hminr : Min.min qy (qx / (node.pxw / node.pxh)) =
              qx / (node.pxw / node.pxh) := min_eq_right hxr
          have hdmc : qx / (node.pxw / node.pxh) * (node.pxw / node.pxh) =
              qx := div_mul_cancel₀ _ hr.ne'
          have h3 : Min.min qx (qy * (node.pxw / node.pxh)) /
              (node.pxw / node.pxh) ≤ qy := by
            rw [div_le_iff₀ hr]
            exact min_le_right _ _
          refine ⟨fun h => by rw [hw] at h; simp at h, fun _ => ?_⟩
          cases hex : (node.expand regions).x <;>
            cases hey : (node.expand regions).y <;>
              simp [ImageNode.target, hw, hex, hey, hXe, hYe, hpx,
                Ext.isFinite, Ext.div, Ext.mul, Ext.min, Ext.ble, hr.ne',
                hr.le, hq2, hxr, hminr, hdmc, h3]
        · have hge : node.pxw / node.pxh ≤ qx / qy := not_lt.mp hlt
          have hw : node.wide regions = false := by
            simp [ImageNode.wide, ImageNode.regionAspect, hXe, hYe, hpx,
              Ext.div, Ext.blt, hqy0.ne', hlt]
          have hq5 : qy * (node.pxw / node.pxh) ≤ qx := by
            have h0 := (le_div_iff₀ hqy0).mp hge
            have h1 : node.pxw / node.pxh * qy = qy * (node.pxw / node.pxh) :=
              mul_comm _ _
            linarith
          have hq6 : qy ≤ qx / (node.pxw / node.pxh) := (le_div_iff₀ hr).mpr hq5
          have hq7 : Min.min qy (qx / (node.pxw / node.pxh)) *
              (node.pxw / node.pxh) ≤ qx := by
            have h71 := mul_le_mul_of_nonneg_right
              (min_le_right qy (qx / (node.pxw / node.pxh))) hr.le
            rw [div_mul_cancel₀ _ hr.ne'] at h71
            exact h71
          have hq8 : qy * (node.pxw / node.pxh) ≤
              Min.min qx (qy * (node.pxw / node.pxh)) := le_min hq5 le_rfl
          have hq9 : qy ≤ Min.min qx (qy * (node.pxw / node.pxh)) /
              (node.pxw / node.pxh) := (le_div_iff₀ hr).mpr hq8
          refine ⟨fun _ => ?_, fun h => by rw [hw] at h; simp at h⟩
          cases hex : (node.expand regions).x <;>
            cases hey : (node.expand regions).y <;>
              simp [ImageNode.target, hw, hex, hey, hXe, hYe, hpx,
                Ext.isFinite, Ext.div, Ext.mul, Ext.min, Ext.ble, hr.ne',
                hr.le, hq5, hq6, hq7, hq8, hq9]

/-- Helper: the target box is well-formed on both axes. -/
theorem target_nonneg (node : ImageNode) (regions : Regions)
    (hwf : WfInput node regions) :
    (node.target regions).x.nonneg = true ∧
    (node.target regions).y.nonneg = true := by
  obtain ⟨hX, hY⟩ := region_nonneg node regions hwf
  obtain ⟨hpw, hph, -, -, -, -⟩ := hwf
  have hr : 0 < node.pxw / node.pxh := div_pos hpw hph
  have hpx := pxAspect_eq node hph
  simp only [ImageNode.target, hpx]
  split_ifs
  · exact ⟨hX, hY⟩
  · exact ⟨hX, Ext.nonneg_min hY (Ext.nonneg_div_fin hX hr)⟩
  · exact ⟨Ext.nonneg_min hX (Ext.nonneg_mul_fin hY hr), hY⟩
  · exact ⟨by simp [Ext.nonneg, hpw.le], by simp [Ext.nonneg, hph.le]⟩

/-- Helper: the fitted size is well-formed on both axes. -/
theorem fitted_nonneg (node : ImageNode) (regions : Regions) (fit : ImageFit)
    (hwf : WfInput node regions) :
    (node.fitted regions fit).x.nonneg = true ∧
    (node.fitted regions fit).y.nonneg = true := by
  obtain ⟨htx, hty⟩ := target_nonneg node regions hwf
  obtain ⟨hpw, hph, -, -, -, -⟩ := hwf
  have hr : 0 < node.pxw / node.pxh := div_pos hpw hph
  have hpx := pxAspect_eq node hph
  cases fit with
  | stretch => exact ⟨htx, hty⟩
  | cover =>
    simp only [ImageNode.fitted, hpx]
    split_ifs
    · exact ⟨htx, Ext.nonneg_div_fin htx hr⟩
    · exact ⟨Ext.nonneg_mul_fin hty hr, hty⟩
  | contain =>
    simp only [ImageNode.fitted, hpx]
    split_ifs
    · exact ⟨htx, Ext.nonneg_div_fin htx hr⟩
    · exact ⟨Ext.nonneg_mul_fin hty hr, hty⟩

/-- C1: for every well-formed input where fit_mode is Cover, the placed size
covers the target box on both axes: placed.x is at least target.x and
placed.y is at least target.y, for all combinations of expansion flags,
finite or unbounded region axes and aspect ratios, given positive finite
intrinsic pixel dimensions. -/
theorem claim1_cover_covers (node : ImageNode) (regions : Regions)
    (hwf : WfInput node regions) :
    Ext.ble (node.target regions).x
      (node.fitted regions ImageFit.cover).x = true ∧
    Ext.ble (node.target regions).y
      (node.fitted regions ImageFit.cover).y = true := by
  obtain ⟨htx, hty⟩ := target_nonneg node regions hwf
  obtain ⟨hb, ht⟩ := fit_bounds node regions hwf
  by_cases hw : node.wide regions = false
  · obtain ⟨h1, -⟩ := hb hw
    have hfit : node.fitted regions ImageFit.cover =
        Axes.mk (node.target regions).x
          (Ext.div (node.target regions).x node.pxAspect) := by
      simp [ImageNode.fitted, hw, ImageFit.isContain]
    rw [hfit]
    exact ⟨Ext.ble_self_of_nonneg htx, h1⟩
  · have hw' : node.wide regions = true := by
      cases h : node.wide regions
      · exact absurd h hw
      · rfl
    obtain ⟨h2, -⟩ := ht hw'
    have hfit : node.fitted regions ImageFit.cover =
        Axes.mk (Ext.mul (node.target regions).y node.pxAspect)
          (node.target regions).y := by
      simp [ImageNode.fitted, hw', ImageFit.isContain]
    rw [hfit]
    exact ⟨h2, Ext.ble_self_of_nonneg hty⟩

/-- Witness for C1 at the concrete non-expanding input. -/
theorem claim1_witness :
    Ext.ble (wNode.target wRegions).x
      (wNode.fitted wRegions ImageFit.cover).x = true ∧
    Ext.ble (wNode.target wRegions).y
      (wNode.fitted wRegions ImageFit.cover).y = true :=
  claim1_cover_covers wNode wRegions wNode_wf

/-- C3: for every well-formed input where fit_mode is Contain, the placed
size fits inside the target box on both axes: placed.x is at most target.x
and placed.y is at most target.y, for all combinations of expansion flags,
finite or unbounded region axes and aspect ratios, given positive finite
intrinsic pixel dimensions. -/
theorem claim3_contain_fits (node : ImageNode) (regions : Regions)
    (hwf : WfInput node regions) :
    Ext.ble (node.fitted regions ImageFit.contain).x
      (node.target regions).x = true ∧
    Ext.ble (node.fitted regions ImageFit.contain).y
      (node.target regions).y = true := by
  obtain ⟨htx, hty⟩ := target_nonneg node regions hwf
  obtain ⟨hb, ht⟩ := fit_bounds node regions hwf
  by_cases hw : node.wide regions = false
  · obtain ⟨-, h1⟩ := hb hw
    have hfit : node.fitted regions ImageFit.contain =
        Axes.mk (Ext.mul (node.target regions).y node.pxAspect)
          (node.target regions).y := by
      simp [ImageNode.fitted, hw, ImageFit.isContain]
    rw [hfit]
    exact ⟨h1, Ext.ble_self_of_nonneg hty⟩
  · have hw' : node.wide regions = true := by
      cases h : node.wide regions
      · exact absurd h hw
      · rfl
    obtain ⟨-, h2⟩ := ht hw'
    have hfit : node.fitted regions ImageFit.contain =
        Axes.mk (node.target regions).x
          (Ext.div (node.target regions).x node.pxAspect) := by
      simp [ImageNode.fitted, hw', ImageFit.isContain]
    rw [hfit]
    exact ⟨Ext.ble_self_of_nonneg htx, h2⟩

/-- Witness for C3 at the concrete non-expanding input. -/
theorem claim3_witness :
    Ext.ble (wNode.fitted wRegions ImageFit.contain).x
      (wNode.target wRegions).x = true ∧
    Ext.ble (wNode.fitted wRegions ImageFit.contain).y
      (wNode.target wRegions).y = true :=
  claim3_contain_fits wNode wRegions wNode_wf

/-- C2: for every well-formed input, the clip flag equals exactly the
conjunction of fit_mode being Cover with the placed extent strictly
exceeding the target on at least one axis; in particular clip is always
false for Contain and Stretch. -/
theorem claim2_clip_iff (node : ImageNode) (regions : Regions)
    (fit : ImageFit) (hwf : WfInput node regions) :
    node.clip regions fit =
      (decide (fit = ImageFit.cover) &&
       (Ext.blt (node.target regions).x (node.fitted regions fit).x ||
        Ext.blt (node.target regions).y (node.fitted regions fit).y)) := by
  obtain ⟨htx, hty⟩ := target_nonneg node regions hwf
  obtain ⟨hfx, hfy⟩ := fitted_nonneg node regions fit hwf
  rw [ImageNode.clip, sizeFits, Bool.not_and,
    Ext.not_ble_of_nonneg hfx htx, Ext.not_ble_of_nonneg hfy hty]

/-- Witness for C2 at the concrete expanding input with Cover, where the
clip flag is in fact true. -/
theorem claim2_witness :
    wNode.clip wRegionsExpand ImageFit.cover =
      (decide (ImageFit.cover = ImageFit.cover) &&
       (Ext.blt (wNode.target wRegionsExpand).x
          (wNode.fitted wRegionsExpand ImageFit.cover).x ||
        Ext.blt (wNode.target wRegionsExpand).y
          (wNode.fitted wRegionsExpand ImageFit.cover).y)) :=
  claim2_clip_iff wNode wRegionsExpand ImageFit.cover wNode_wf_expand

/-- C4 counterexample: with a square one-pixel image, a region unbounded on
both axes and both expansion flags set, Cover places the image at infinite
size on both axes, so the placed ratio is the undefined value rather than
the pixel ratio. -/
theorem claim4_counterexample :
    WfInput (ImageNode.mk 1 1 Smart.auto Smart.auto)
      (Regions.mk (Axes.mk Ext.inf Ext.inf) (Axes.mk true true)) ∧
    (ImageNode.mk 1 1 Smart.auto Smart.auto).fitted
      (Regions.mk (Axes.mk Ext.inf Ext.inf) (Axes.mk true true))
      ImageFit.cover = Axes.mk Ext.inf Ext.inf ∧
    Ext.div Ext.inf Ext.inf ≠
      (ImageNode.mk 1 1 Smart.auto Smart.auto).pxAspect := by
  refine ⟨⟨by norm_num, by norm_num, rfl, rfl, rfl, rfl⟩, ?_, ?_⟩
  · norm_num [ImageNode.fitted, ImageNode.target, ImageNode.wide,
      ImageNode.regionAspect, ImageNode.region, ImageNode.expand,
      ImageNode.pxAspect, Smart.isCustom, ImageFit.isContain, Ext.div,
      Ext.blt, Ext.isFinite]
  · simp [ImageNode.pxAspect, Ext.div]

/-- C4 (amended): for every input where fit_mode is Cover or Contain, with
positive intrinsic pixel dimensions and a finite positive placed height,
the placed ratio placed.x / placed.y equals the pixel ratio exactly. -/
theorem claim4_aspect_preserved (node : ImageNode) (regions : Regions)
    (fit : ImageFit) (hfit : fit ≠ ImageFit.stretch)
    (hpw : 0 < node.pxw) (hph : 0 < node.pxh) (q : ℚ)
    (hq : (node.fitted regions fit).y = Ext.fin q) (hq0 : 0 < q) :
    Ext.div (node.fitted regions fit).x (node.fitted regions fit).y =
      Ext.fin (node.pxw / node.pxh) := by
  have hr : 0 < node.pxw / node.pxh := div_pos hpw hph
  have hpx := pxAspect_eq node hph
  have main : ∀ h : Bool, node.wide regions = h →
      fit = ImageFit.cover ∨ fit = ImageFit.contain →
      Ext.div (node.fitted regions fit).x (node.fitted regions fit).y =
        Ext.fin (node.pxw / node.pxh) := by
    intro b hb hcc
    have hfeq : node.fitted regions fit =
        (if node.wide regions = fit.isContain then
          Axes.mk (node.target regions).x
            (Ext.div (node.target regions).x node.pxAspect)
        else
          Axes.mk (Ext.mul (node.target regions).y node.pxAspect)
            (node.target regions).y) := by
      rcases hcc with h | h <;> subst h <;> rfl
    rw [hfeq] at hq ⊢
    split_ifs at hq ⊢ with hcond
    · -- width-driven branch
      simp only [hpx] at hq ⊢
      cases htx : (node.target regions).x with
      | nan => rw [htx] at hq; simp [Ext.div] at hq
      | ninf => rw [htx] at hq; simp [Ext.div, hr.le] at hq
      | inf => rw [htx] at hq; simp [Ext.div, hr.le] at hq
      | fin t =>
        rw [htx] at hq
        have hqt : t / (node.pxw / node.pxh) = q := by
          simpa [Ext.div, hr.ne'] using hq
        have ht : q * (node.pxw / node.pxh) = t := by
          rw [← hqt, div_mul_cancel₀ _ hr.ne']
        have htq : t / q = node.pxw / node.pxh := by
          rw [← ht, mul_div_cancel_left₀ _ hq0.ne']
        simp [Ext.div, hr.ne', hqt, hq0.ne', htq]
    · -- height-driven branch
      simp only [hpx] at hq ⊢
      rw [hq]
      simp [Ext.mul, Ext.div, hq0.ne', mul_div_cancel_left₀ _ hq0.ne']
  exact main (node.wide regions) rfl
    (by cases fit <;> simp_all)

/-- Helper: at the concrete non-expanding input with Cover the placed
height is the finite value two. -/
theorem wFitted_eval : (wNode.fitted wRegions ImageFit.cover).y = Ext.fin 2 := by
  norm_num [ImageNode.fitted, ImageNode.target, ImageNode.wide,
    ImageNode.regionAspect, ImageNode.region, ImageNode.expand,
    ImageNode.pxAspect, wNode, wRegions, Ext.div, Ext.blt, Ext.min,
    Ext.isFinite, Smart.isCustom, ImageFit.isContain]

/-- Witness for the amended C4 at the concrete non-expanding input. -/
theorem claim4_witness :
    Ext.div (wNode.fitted wRegions ImageFit.cover).x
      (wNode.fitted wRegions ImageFit.cover).y =
      Ext.fin (wNode.pxw / wNode.pxh) :=
  claim4_aspect_preserved wNode wRegions ImageFit.cover (by decide)
    (by decide) (by decide) 2 wFitted_eval (by decide)

end ImageLayout
